import Mathlib

/-!
Verification development for the SyncTools synchronization engine
(src-tauri/src/core): data model, comparator, incremental hash skip,
file-list cache and a sequential abstraction of the execution core.

Machine integers are modelled as Nat (u64/usize) and Int (i64).
BLAKE3 is modelled as an abstract parameter `blake : List Nat → String`
returning the full hexadecimal digest of a byte list; the incremental
hasher of the source is modelled by hashing the concatenation of the
updated byte slices, which is the defining property of the incremental
API.  Storage reads, the saved-state table and the database are
modelled as explicit inputs; persistence is modelled as the list of
rows handed to the corresponding store.
-/

namespace SyncTools

/-- FileInfo from storage/mod.rs: path, size (u64), modified time (i64),
directory flag and optional checksum. -/
structure FileInfo where
  path : String
  size : Nat
  modified_time : Int
  is_dir : Bool
  checksum : Option String
deriving Repr, DecidableEq

/-- SyncMode from db/models.rs. -/
inductive SyncMode
  | Bidirectional
  | Mirror
  | Backup
deriving Repr, DecidableEq

/-- SyncStatus from db/models.rs. -/
inductive SyncStatus
  | Idle
  | Scanning
  | Comparing
  | Syncing
  | Completed
  | Failed
  | Cancelled
deriving Repr, DecidableEq

/-- ConflictType from comparator.rs. -/
inductive ConflictType
  | BothModified
  | SameSizeDifferentTime
  | ModifiedVsDeleted
deriving Repr, DecidableEq

/-- SyncAction from comparator.rs: the four-variant closed action union. -/
inductive SyncAction
  | copy (source_path dest_path : String) (size : Nat) (reverse : Bool)
  | delete (path : String) (from_dest : Bool)
  | skip (path : String)
  | conflict (path : String) (source_info dest_info : Option FileInfo)
      (conflict_type : ConflictType)
deriving Repr, DecidableEq

/-- FileRelation from comparator.rs. -/
inductive FileRelation
  | Equal
  | SourceNewer
  | DestNewer
  | Different
  | ProbablyEqual
deriving Repr, DecidableEq

/-- CompareConfig from comparator.rs. -/
structure CompareConfig where
  time_tolerance_seconds : Int
  use_checksum : Bool
  ignore_mtime : Bool
  size_only_for_same_size : Bool
deriving Repr, DecidableEq

/-- The Default impl of CompareConfig: tolerance 2 s, checksum off,
mtime honoured, size-only comparison for equal sizes on. -/
def CompareConfig.default : CompareConfig :=
  { time_tolerance_seconds := 2
    use_checksum := false
    ignore_mtime := false
    size_only_for_same_size := true }

/-- Byte-wise strict comparison of two character lists.  Rust compares
String values as UTF-8 byte arrays; UTF-8 byte order coincides with
code-point order, which this function implements. -/
def charListLt : List Char → List Char → Bool
  | [], [] => false
  | [], _ :: _ => true
  | _ :: _, [] => false
  | a :: as, b :: bs =>
    if a.toNat < b.toNat then true
    else if b.toNat < a.toNat then false
    else charListLt as bs

/-- Strict order on strings as Rust String cmp produces it. -/
def strLt (a b : String) : Bool := charListLt a.data b.data

/-- Reflexive order on strings derived from strLt. -/
def strLe (a b : String) : Bool := !strLt b a

/-- compare_files from comparator.rs: checksum short-circuit when
enabled and both present, then size, then the size-only flag, then the
ignore-mtime flag, then modification time with tolerance. -/
def compare_files (cfg : CompareConfig) (source dest : FileInfo) : FileRelation :=
  let checksum_verdict : Option FileRelation :=
    if cfg.use_checksum then
      match source.checksum, dest.checksum with
      | some src_sum, some dst_sum =>
        some (if src_sum = dst_sum then FileRelation.Equal else FileRelation.Different)
      | _, _ => none
    else none
  match checksum_verdict with
  | some r => r
  | none =>
    if source.size ≠ dest.size then FileRelation.Different
    else if cfg.size_only_for_same_size then FileRelation.Equal
    else if cfg.ignore_mtime then FileRelation.ProbablyEqual
    else
      let time_diff := |source.modified_time - dest.modified_time|
      if time_diff ≤ cfg.time_tolerance_seconds then FileRelation.Equal
      else if source.modified_time > dest.modified_time then FileRelation.SourceNewer
      else FileRelation.DestNewer

/-- A scanned file tree: the path keyed map produced by the scanner,
represented as an association list (the HashMap content; iteration
order of the Rust HashMap is arbitrary, which the theorems quantify
over through permutations). -/
abbrev Tree := List (String × FileInfo)

/-- Lookup in a tree, as HashMap get. -/
def tree_get (t : Tree) (p : String) : Option FileInfo :=
  (t.find? (fun e => e.1 == p)).map (·.2)

/-- The key set of a tree. -/
def tree_keys (t : Tree) : List String := t.map (·.1)

/-- The single action compare_trees emits for one path of the union of
both key sets (the body of the per-path match in comparator.rs).
Directories present on both sides, and directories present on a single
side, yield no action (the source continues the loop). -/
def action_for_path (cfg : CompareConfig) (source dest : String → Option FileInfo)
    (mode : SyncMode) (path : String) : Option SyncAction :=
  match source path, dest path with
  | some src, some dst =>
    if src.is_dir && dst.is_dir then none
    else some (match compare_files cfg src dst with
      | FileRelation.Equal | FileRelation.ProbablyEqual => SyncAction.skip path
      | FileRelation.SourceNewer => SyncAction.copy path path src.size false
      | FileRelation.DestNewer =>
        match mode with
        | SyncMode.Bidirectional => SyncAction.copy path path dst.size true
        | SyncMode.Mirror | SyncMode.Backup => SyncAction.copy path path src.size false
      | FileRelation.Different =>
        match mode with
        | SyncMode.Bidirectional =>
          SyncAction.conflict path (some src) (some dst) ConflictType.BothModified
        | SyncMode.Mirror | SyncMode.Backup => SyncAction.copy path path src.size false)
  | some src, none =>
    if src.is_dir then none
    else some (SyncAction.copy path path src.size false)
  | none, some dst =>
    if dst.is_dir then none
    else some (match mode with
      | SyncMode.Mirror => SyncAction.delete path true
      | SyncMode.Bidirectional => SyncAction.copy path path dst.size true
      | SyncMode.Backup => SyncAction.skip path)
  | none, none => none

/-- The sort rank of an action kind in the final sort of compare_trees:
Copy 0, Conflict 1, Delete 2, Skip 3. -/
def action_order : SyncAction → Nat
  | SyncAction.copy _ _ _ _ => 0
  | SyncAction.conflict _ _ _ _ => 1
  | SyncAction.delete _ _ => 2
  | SyncAction.skip _ => 3

/-- The path component of the sort key: source_path for Copy, path for
the other variants. -/
def action_path : SyncAction → String
  | SyncAction.copy source_path _ _ _ => source_path
  | SyncAction.delete path _ => path
  | SyncAction.skip path => path
  | SyncAction.conflict path _ _ _ => path

/-- The comparator used by the final sort_by of compare_trees:
(kind rank, path) lexicographically. -/
def actionLe (a b : SyncAction) : Bool :=
  decide (action_order a < action_order b) ||
    (decide (action_order a = action_order b) && strLe (action_path a) (action_path b))

/-- Strict version of the action sort key order. -/
def actionLt (a b : SyncAction) : Bool :=
  decide (action_order a < action_order b) ||
    (decide (action_order a = action_order b) && strLt (action_path a) (action_path b))

/-- compare_trees from comparator.rs: one action per path of the key
union, then the stable sort by (kind rank, path).  Since the sort key
is unique per emitted action, any correct sort produces the unique
sorted arrangement; insertion sort realises the Rust sort_by. -/
def compare_trees (cfg : CompareConfig) (source dest : Tree) (mode : SyncMode) :
    List SyncAction :=
  List.insertionSort (fun a b => actionLe a b = true)
    (((tree_keys source ++ tree_keys dest).dedup).filterMap
      (action_for_path cfg (tree_get source) (tree_get dest) mode))

/-- ActionSummary from comparator.rs. -/
structure ActionSummary where
  copy_count : Nat
  copy_bytes : Nat
  reverse_copy_count : Nat
  reverse_copy_bytes : Nat
  delete_count : Nat
  skip_count : Nat
  conflict_count : Nat
deriving Repr, DecidableEq

/-- The all-zero summary (the Default impl). -/
def ActionSummary.zero : ActionSummary := ⟨0, 0, 0, 0, 0, 0, 0⟩

/-- Accumulate one action into a summary. -/
def summarize_step (s : ActionSummary) : SyncAction → ActionSummary
  | SyncAction.copy _ _ size reverse =>
    if reverse then
      { s with reverse_copy_count := s.reverse_copy_count + 1
               reverse_copy_bytes := s.reverse_copy_bytes + size }
    else
      { s with copy_count := s.copy_count + 1
               copy_bytes := s.copy_bytes + size }
  | SyncAction.delete _ _ => { s with delete_count := s.delete_count + 1 }
  | SyncAction.skip _ => { s with skip_count := s.skip_count + 1 }
  | SyncAction.conflict _ _ _ _ => { s with conflict_count := s.conflict_count + 1 }

/-- summarize_actions from comparator.rs. -/
def summarize_actions (actions : List SyncAction) : ActionSummary :=
  actions.foldl summarize_step ActionSummary.zero

/-- total_transfer_bytes from comparator.rs. -/
def ActionSummary.total_transfer_bytes (s : ActionSummary) : Nat :=
  s.copy_bytes + s.reverse_copy_bytes

/-- FileState from file_state.rs: the persistent per (job, path) record. -/
structure FileState where
  job_id : String
  file_path : String
  file_size : Int
  modified_time : Int
  checksum : Option String
  last_sync_time : Option Int
deriving Repr, DecidableEq

/-- The eight little-endian bytes of a usize value, as in
usize to_le_bytes in file_state.rs. -/
def usize_le_bytes (n : Nat) : List Nat :=
  (List.range 8).map (fun i => n / 256 ^ i % 256)

/-- calculate_hash from file_state.rs: the first 32 hexadecimal
characters of the BLAKE3 digest of the data. -/
def calculate_hash (blake : List Nat → String) (data : List Nat) : String :=
  (blake data).take 32

/-- calculate_quick_hash from file_state.rs: the full hash for inputs
of at most 64 KB, else the first 32 hexadecimal characters of the
BLAKE3 digest of head 16 KB, middle 16 KB, tail 16 KB and the
little-endian length. -/
def calculate_quick_hash (blake : List Nat → String) (data : List Nat) : String :=
  let len := data.length
  if len ≤ 65536 then calculate_hash blake data
  else
    let chunk_size := 16384
    let head := data.take chunk_size
    let mid := (data.drop (len / 2 - chunk_size / 2)).take chunk_size
    let tail := data.drop (len - chunk_size)
    ((blake (head ++ mid ++ tail ++ usize_le_bytes len)).take 32)

/-- The first pass of the incremental hash-skip phase in run_sync
(engine.rs): collect the source paths of the non-reverse Copy actions
whose saved FileState has the same size and a recorded checksum. -/
def files_to_hash (saved : String → Option FileState) (actions : List SyncAction) :
    List String :=
  actions.filterMap fun a =>
    match a with
    | SyncAction.copy source_path _ size false =>
      match saved source_path with
      | some st =>
        if st.file_size = (size : Int) ∧ st.checksum.isSome then some source_path
        else none
      | none => none
    | _ => none

/-- The rewrite step of the hash-skip phase: replace the first Copy
action whose source_path matches with a Skip, as the inner for loop
with break does in engine.rs. -/
def rewrite_first_copy (p : String) : List SyncAction → List SyncAction
  | [] => []
  | a :: rest =>
    match a with
    | SyncAction.copy source_path _ _ _ =>
      if source_path = p then SyncAction.skip p :: rest
      else a :: rewrite_first_copy p rest
    | _ => a :: rewrite_first_copy p rest

/-- The second pass of the incremental hash-skip phase in run_sync
(engine.rs): for every collected path, re-read the source bytes,
recompute the quick hash, and on a match rewrite the Copy to a Skip.
A failed read leaves the action unchanged.  Note that the rewrite is
not guarded by membership of the path in the destination tree. -/
def hash_skip_phase (blake : List Nat → String) (saved : String → Option FileState)
    (read_source : String → Option (List Nat)) (actions : List SyncAction) :
    List SyncAction :=
  (files_to_hash saved actions).foldl
    (fun acc p =>
      match saved p with
      | some st =>
        match st.checksum with
        | some saved_hash =>
          match read_source p with
          | some data =>
            if calculate_quick_hash blake data = saved_hash then rewrite_first_copy p acc
            else acc
          | none => acc
        | none => acc
      | none => acc)
    actions

/-- CacheEntry from cache.rs: files, cache timestamp and config hash. -/
structure CacheEntry where
  files : Tree
  cached_at : Nat
  config_hash : String
deriving Repr, DecidableEq

/-- CacheResult from cache.rs: the loaded files and their cache time. -/
structure CacheResult where
  files : Tree
  cached_at : Nat
deriving Repr, DecidableEq

/-- FileListCache load from cache.rs as a pure function of the on-disk
entry for the (job, side) key: a missing file yields None; a config
hash mismatch deletes the file and yields None; an expired entry
(only when ttl_seconds is positive) deletes the file and yields None;
otherwise the files are served and the file is kept.  The returned
pair is (load result, entry remaining on disk).  The config hash
function of cache.rs (truncated BLAKE3 of the config JSON) is the
abstract parameter hash_config. -/
def cache_load (hash_config : String → String) (ttl_seconds : Nat)
    (disk : Option CacheEntry) (now : Nat) (config_json : String) :
    Option CacheResult × Option CacheEntry :=
  match disk with
  | none => (none, none)
  | some entry =>
    if entry.config_hash ≠ hash_config config_json then (none, none)
    else if ttl_seconds > 0 ∧ now - entry.cached_at > ttl_seconds then (none, none)
    else (some ⟨entry.files, entry.cached_at⟩, some entry)

/-- FileListCache save from cache.rs: the entry written to disk. -/
def cache_save (hash_config : String → String) (now : Nat) (config_json : String)
    (files : Tree) : CacheEntry :=
  ⟨files, now, hash_config config_json⟩

/-- The per-side TTL choice of run_sync (engine.rs): 0 for a Local
storage, the configured remote TTL otherwise. -/
def side_cache_ttl (is_local : Bool) (remote_cache_ttl : Nat) : Nat :=
  if is_local then 0 else remote_cache_ttl

/-- The tree acquisition step of run_sync (engine.rs) for one side,
force_refresh off: serve the cache when load succeeds, otherwise scan
and save.  Returns the tree used, whether it came from the cache, and
the resulting on-disk entry. -/
def acquire_tree (hash_config : String → String) (ttl_seconds : Nat)
    (disk : Option CacheEntry) (now : Nat) (config_json : String)
    (scan_result : Tree) : Tree × Bool × Option CacheEntry :=
  match cache_load hash_config ttl_seconds disk now config_json with
  | (some cached, disk1) => (cached.files, true, disk1)
  | (none, _) =>
    (scan_result, false, some (cache_save hash_config now config_json scan_result))

/-- Transfer parameters of the engine: chunk size and the streaming
threshold (SyncConfig chunk_size and large_file_threshold). -/
structure TransferParams where
  chunk_size : Nat
  stream_threshold : Nat
deriving Repr, DecidableEq

/-- The outcome the environment assigns to a single execution attempt
of one action: success, a failure on the buffered path or in the
range-read phase of the streamed path (no bytes counted), or a failure
of the streamed upload after a number of chunks was pulled from the
byte stream (those chunk lengths were already added to the transferred
byte counter and are never rolled back). -/
inductive AttemptOutcome
  | ok
  | failNormal
  | failStreamPhase1
  | failStreamPhase2 (chunks_pulled : Nat)
deriving Repr, DecidableEq

/-- The schedule the environment assigns to one dispatched action: the
cancellation flag value at the dispatch-loop check, the flag value at
the check opening each retry attempt, and the IO outcome of each
attempt. -/
structure ActSched where
  pre_cancelled : Bool
  cancelled_at : Nat → Bool
  outcome : Nat → AttemptOutcome

/-- The bytes a copy reads: non-reverse from the source at source_path,
reverse from the destination at dest_path (execute_action). -/
def copy_read_data (src_content dst_content : String → List Nat) : SyncAction → List Nat
  | SyncAction.copy source_path dest_path _ reverse =>
    if reverse then dst_content dest_path else src_content source_path
  | _ => []

/-- The data staged into the temp file by the streamed path: the chunk
loop concatenates the range reads of offsets 0 to size. -/
def stream_temp_data (data : List Nat) (size : Nat) : List Nat := data.take size

/-- ActionResult from engine.rs: the per-file information a successful
execute_action returns, present only for non-reverse copies. -/
structure ActionResult where
  file_path : Option String
  file_hash : Option String
  file_size : Option Int
deriving Repr, DecidableEq

/-- The ActionResult of a successful execute_action: on the streamed
path the full BLAKE3 digest of the staged data and the declared size,
on the buffered path the quick hash and the actual byte count; all
fields None for reverse copies, deletes and skips. -/
def execute_action_result (blake : List Nat → String) (tp : TransferParams)
    (src_content dst_content : String → List Nat) : SyncAction → ActionResult
  | SyncAction.copy source_path dest_path size reverse =>
    let data := copy_read_data src_content dst_content
      (SyncAction.copy source_path dest_path size reverse)
    if size > tp.stream_threshold then
      { file_path := if reverse then none else some source_path
        file_hash := if reverse then none else some (blake (stream_temp_data data size))
        file_size := if reverse then none else some (size : Int) }
    else
      { file_path := if reverse then none else some source_path
        file_hash := if reverse then none else some (calculate_quick_hash blake data)
        file_size := if reverse then none else some (data.length : Int) }
  | _ => { file_path := none, file_hash := none, file_size := none }

/-- The bytes one attempt adds to the transferred counter: a successful
buffered copy adds the declared size, a successful streamed copy adds
the staged temp length, a streamed upload failing after some pulled
chunks adds those chunk lengths, and everything else adds nothing. -/
def attempt_bytes (tp : TransferParams) (src_content dst_content : String → List Nat)
    (a : SyncAction) : AttemptOutcome → Nat
  | AttemptOutcome.ok =>
    match a with
    | SyncAction.copy source_path dest_path size reverse =>
      if size > tp.stream_threshold then
        (stream_temp_data (copy_read_data src_content dst_content
          (SyncAction.copy source_path dest_path size reverse)) size).length
      else size
    | _ => 0
  | AttemptOutcome.failStreamPhase2 chunks_pulled =>
    match a with
    | SyncAction.copy source_path dest_path size reverse =>
      if size > tp.stream_threshold then
        min (chunks_pulled * tp.chunk_size)
          (stream_temp_data (copy_read_data src_content dst_content
            (SyncAction.copy source_path dest_path size reverse)) size).length
      else 0
    | _ => 0
  | _ => 0

/-- Whether one attempt completes the action: an uncancelled ok outcome
succeeds for copies, deletes and skips; a Conflict action always
returns an error from execute_action. -/
def attempt_success : SyncAction → AttemptOutcome → Bool
  | SyncAction.conflict _ _ _ _, _ => false
  | _, AttemptOutcome.ok => true
  | _, _ => false

/-- The FileState execute_action_with_retry builds from a successful
ActionResult when all three per-file fields are present. -/
def result_file_state (job_id : String) (now : Int) (r : ActionResult) :
    Option FileState :=
  match r.file_path, r.file_hash, r.file_size with
  | some p, some h, some s => some ⟨job_id, p, s, now, some h, some now⟩
  | _, _, _ => none

/-- The result of running one action to completion: whether it
succeeded, the bytes it added to the transferred counter, and the
FileState it produced. -/
structure ActRes where
  success : Bool
  bytes : Nat
  state : Option FileState
deriving Repr, DecidableEq

/-- The retry loop body of execute_action_with_retry: each attempt
first reads the cancellation flag and fails the whole action when set,
then executes; a success ends the loop with an optional FileState,
a failure retries until the fuel (max_retries + 1 attempts) runs out.
Bytes of failed streaming attempts stay counted. -/
def exec_attempts_go (blake : List Nat → String) (job_id : String) (now : Int)
    (tp : TransferParams) (src_content dst_content : String → List Nat)
    (sched : ActSched) (a : SyncAction) : Nat → Nat → Nat → ActRes
  | _, 0, acc => ⟨false, acc, none⟩
  | attempt, fuel + 1, acc =>
    if sched.cancelled_at attempt then ⟨false, acc, none⟩
    else
      let out := sched.outcome attempt
      if attempt_success a out then
        ⟨true, acc + attempt_bytes tp src_content dst_content a out,
          result_file_state job_id now
            (execute_action_result blake tp src_content dst_content a)⟩
      else
        exec_attempts_go blake job_id now tp src_content dst_content sched a
          (attempt + 1) fuel (acc + attempt_bytes tp src_content dst_content a out)

/-- execute_action_with_retry from engine.rs, for one action. -/
def execute_action_with_retry (blake : List Nat → String) (job_id : String) (now : Int)
    (tp : TransferParams) (src_content dst_content : String → List Nat)
    (max_retries : Nat) (sched : ActSched) (a : SyncAction) : ActRes :=
  exec_attempts_go blake job_id now tp src_content dst_content sched a 0
    (max_retries + 1) 0

/-- The counters and collected state of execute_sync_parallel. -/
structure ExecTotals where
  completed : Nat
  failed : Nat
  bytes : Nat
  states : List FileState
deriving Repr, DecidableEq

/-- The dispatch loop of execute_sync_parallel: before dispatching each
action the cancellation flag is read and a set flag breaks the loop;
otherwise the action runs to completion, incrementing the completed or
failed counter, adding its bytes, and collecting its FileState. -/
def exec_actions_from (blake : List Nat → String) (job_id : String) (now : Int)
    (tp : TransferParams) (src_content dst_content : String → List Nat)
    (max_retries : Nat) (scheds : Nat → ActSched) : Nat → List SyncAction → ExecTotals
  | _, [] => ⟨0, 0, 0, []⟩
  | i, a :: rest =>
    if (scheds i).pre_cancelled then ⟨0, 0, 0, []⟩
    else
      let r := execute_action_with_retry blake job_id now tp src_content dst_content
        max_retries (scheds i) a
      let t := exec_actions_from blake job_id now tp src_content dst_content
        max_retries scheds (i + 1) rest
      ⟨(if r.success then 1 else 0) + t.completed,
        (if r.success then 0 else 1) + t.failed,
        r.bytes + t.bytes,
        r.state.toList ++ t.states⟩

/-- Whether an action is a Skip (the executable_actions filter). -/
def is_skip : SyncAction → Bool
  | SyncAction.skip _ => true
  | _ => false

/-- The value execute_sync_parallel returns, together with the batch of
FileStates handed to the state store at the end of the run. -/
structure SyncOutcome where
  files_copied : Nat
  files_deleted : Nat
  files_failed : Nat
  bytes_transferred : Nat
  states_saved : List FileState
deriving Repr, DecidableEq

/-- execute_sync_parallel from engine.rs: filter out Skips, run the
dispatch loop, batch-save the collected FileStates, and split the
completed counter into copied (capped by the copy counts of the
summary) and deleted. -/
def execute_sync_parallel (blake : List Nat → String) (job_id : String) (now : Int)
    (tp : TransferParams) (src_content dst_content : String → List Nat)
    (max_retries : Nat) (scheds : Nat → ActSched) (actions : List SyncAction)
    (summary : ActionSummary) : SyncOutcome :=
  let executable := actions.filter (fun a => !is_skip a)
  let t := exec_actions_from blake job_id now tp src_content dst_content max_retries
    scheds 0 executable
  let files_copied := min t.completed (summary.copy_count + summary.reverse_copy_count)
  ⟨files_copied, t.completed - files_copied, t.failed, t.bytes, t.states⟩

/-- One row of the sync_logs table as log_sync_result inserts it. -/
structure LogRow where
  job_id : String
  status : SyncStatus
  files_scanned : Nat
  files_copied : Nat
  files_deleted : Nat
  bytes_transferred : Nat
deriving Repr, DecidableEq

/-- The observable outcome of one engine run: the report fields the
claims mention, the sync_logs rows written, and the FileStates handed
to the state store. -/
structure RunResult where
  status : SyncStatus
  filesScanned : Nat
  filesCopied : Nat
  filesDeleted : Nat
  filesSkipped : Nat
  filesFailed : Nat
  bytesTransferred : Nat
  log_rows : List LogRow
  persisted_states : List FileState
deriving Repr, DecidableEq

/-- The early-return result of create_cancelled_report: a Cancelled
report with zero counters; no sync_logs row is written and no
FileState is persisted on this path. -/
def cancelled_run_result : RunResult :=
  ⟨SyncStatus.Cancelled, 0, 0, 0, 0, 0, 0, [], []⟩

/-- run_sync from engine.rs after the two storages are connected, with
the scan results given as trees (scanning and the file-list cache are
modelled separately by acquire_tree): the four pre-execution
cancellation checks each early-return a cancelled report without
logging; otherwise the comparator (with the default CompareConfig, as
FileComparator default is used) and the hash-skip phase produce the
action list, the executor runs it, the terminal status is Failed when
any action failed, else Cancelled when the flag is set, else
Completed, and exactly one sync_logs row is written. -/
def run_sync (blake : List Nat → String) (job_id : String) (now : Int)
    (flag : Nat → Bool) (tp : TransferParams) (max_retries : Nat)
    (src_content dst_content : String → List Nat)
    (source_tree dest_tree : Tree) (mode : SyncMode)
    (saved : String → Option FileState) (read_source : String → Option (List Nat))
    (scheds : Nat → ActSched) : RunResult :=
  if flag 0 then cancelled_run_result
  else if flag 1 then cancelled_run_result
  else if flag 2 then cancelled_run_result
  else
    let files_scanned := source_tree.length + dest_tree.length
    let actions := hash_skip_phase blake saved read_source
      (compare_trees CompareConfig.default source_tree dest_tree mode)
    let summary := summarize_actions actions
    if flag 3 then cancelled_run_result
    else
      let o := execute_sync_parallel blake job_id now tp src_content dst_content
        max_retries scheds actions summary
      let status := if o.files_failed > 0 then SyncStatus.Failed
        else if flag 4 then SyncStatus.Cancelled
        else SyncStatus.Completed
      { status := status
        filesScanned := files_scanned
        filesCopied := o.files_copied
        filesDeleted := o.files_deleted
        filesSkipped := summary.skip_count
        filesFailed := o.files_failed
        bytesTransferred := o.bytes_transferred
        log_rows := [⟨job_id, status, files_scanned, o.files_copied, o.files_deleted,
          o.bytes_transferred⟩]
        persisted_states := o.states_saved }

/-- The actions the dispatch loop actually dispatches, with their
dispatch indices: the longest prefix not cut off by a set cancellation
flag at the loop check. -/
def dispatched_actions (scheds : Nat → ActSched) : Nat → List SyncAction →
    List (Nat × SyncAction)
  | _, [] => []
  | i, a :: rest =>
    if (scheds i).pre_cancelled then []
    else (i, a) :: dispatched_actions scheds (i + 1) rest

/-- Whether the retry loop reaches a successful attempt before a set
cancellation flag or fuel exhaustion, starting at a given attempt. -/
def action_succeeds_go (sched : ActSched) (a : SyncAction) : Nat → Nat → Bool
  | _, 0 => false
  | attempt, fuel + 1 =>
    if sched.cancelled_at attempt then false
    else if attempt_success a (sched.outcome attempt) then true
    else action_succeeds_go sched a (attempt + 1) fuel

/-- Whether an action completes successfully within max_retries + 1
attempts. -/
def action_succeeds (sched : ActSched) (a : SyncAction) (max_retries : Nat) : Bool :=
  action_succeeds_go sched a 0 (max_retries + 1)

/-- The transferred bytes contributed by the failed attempts of one
action before its terminating attempt: only streamed uploads that fail
after pulling chunks contribute. -/
def failed_stream_bytes_go (tp : TransferParams)
    (src_content dst_content : String → List Nat) (sched : ActSched) (a : SyncAction) :
    Nat → Nat → Nat
  | _, 0 => 0
  | attempt, fuel + 1 =>
    if sched.cancelled_at attempt then 0
    else if attempt_success a (sched.outcome attempt) then 0
    else attempt_bytes tp src_content dst_content a (sched.outcome attempt) +
      failed_stream_bytes_go tp src_content dst_content sched a (attempt + 1) fuel

/-- The bytes counted by failed attempts of one action within
max_retries + 1 attempts. -/
def failed_stream_bytes (tp : TransferParams)
    (src_content dst_content : String → List Nat) (sched : ActSched) (a : SyncAction)
    (max_retries : Nat) : Nat :=
  failed_stream_bytes_go tp src_content dst_content sched a 0 (max_retries + 1)

/-- The bytes a successfully completed action contributes: the declared
size for a buffered copy, the staged temp length (the declared size
whenever the read side holds at least that many bytes) for a streamed
copy, and nothing for deletes, skips and conflicts. -/
def success_copy_bytes (tp : TransferParams)
    (src_content dst_content : String → List Nat) : SyncAction → Nat
  | SyncAction.copy source_path dest_path size reverse =>
    if size > tp.stream_threshold then
      (stream_temp_data (copy_read_data src_content dst_content
        (SyncAction.copy source_path dest_path size reverse)) size).length
    else size
  | _ => 0

/-- The FileState a successfully completed action yields: present
exactly for non-reverse copies, carrying the job id, the source path,
the transferred size and the computed checksum. -/
def state_spec (blake : List Nat → String) (job_id : String) (now : Int)
    (tp : TransferParams) (src_content : String → List Nat) : SyncAction → Option FileState
  | SyncAction.copy source_path _ size false =>
    let data := src_content source_path
    if size > tp.stream_threshold then
      some ⟨job_id, source_path, (size : Int), now,
        some (blake (stream_temp_data data size)), some now⟩
    else
      some ⟨job_id, source_path, (data.length : Int), now,
        some (calculate_quick_hash blake data), some now⟩
  | _ => none

/-- C3: the claim states that a side whose storage is Local is never
served from a saved cache entry because its TTL is forced to 0.  In
FileListCache a ttl_seconds of 0 means the entry never expires, so the
engine serves a Local side from an arbitrarily old cache entry: with
the TTL the engine chooses for a Local side, a saved entry with a
matching config hash is returned by load and used instead of a fresh
scan, contradicting the claim (and the engine comments saying local
storages use no cache). -/
theorem c3_local_ttl_zero_serves_cache :
    ∀ (hash_config : String → String) (remote_ttl : Nat) (files scan_result : Tree)
      (config_json : String),
      acquire_tree hash_config (side_cache_ttl true remote_ttl)
          (some ⟨files, 0, hash_config config_json⟩) 1000000000 config_json scan_result
        = (files, true, some ⟨files, 0, hash_config config_json⟩) := by
  intro hc remote_ttl files scan_result config_json
  simp [acquire_tree, cache_load, side_cache_ttl]

/-- C9: cache round trip.  After save, a load with the same
configuration string within the TTL (or with TTL 0) returns the saved
tree and keeps the file; a load with a different configuration string
returns None and removes the file.  The truncated BLAKE3 config hash
is abstracted as a function assumed collision free on the two
configuration strings (injective). -/
theorem c9_cache_round_trip :
    ∀ (hash_config : String → String),
      (∀ x y, hash_config x = hash_config y → x = y) →
      ∀ (ttl_seconds save_time load_time : Nat) (config_json other_json : String)
        (files : Tree),
        save_time ≤ load_time →
        (ttl_seconds = 0 ∨ load_time - save_time ≤ ttl_seconds) →
        other_json ≠ config_json →
        cache_load hash_config ttl_seconds
            (some (cache_save hash_config save_time config_json files)) load_time config_json
          = (some ⟨files, save_time⟩, some (cache_save hash_config save_time config_json files)) ∧
        cache_load hash_config ttl_seconds
            (some (cache_save hash_config save_time config_json files)) load_time other_json
          = (none, none) := by
  intro hash_config hinj ttl save_time load_time config_json other_json files _hmono httl hne
  constructor
  · have hexp : ¬(ttl > 0 ∧ load_time - save_time > ttl) := by omega
    simp [cache_load, cache_save, hexp]
  · have hhash : hash_config config_json ≠ hash_config other_json := fun h =>
      hne (hinj other_json config_json h.symm)
    simp [cache_load, cache_save, hhash]

/-- Witness for C9 at concrete inputs: identity hash (injective), TTL
0, save at 5, load at 7, configurations a and b. -/
theorem c9_cache_round_trip_witness :
    cache_load (fun s => s) 0
        (some (cache_save (fun s => s) 5 "a" [("p", ⟨"p", 1, 0, false, none⟩)])) 7 "a"
      = (some ⟨[("p", ⟨"p", 1, 0, false, none⟩)], 5⟩,
          some (cache_save (fun s => s) 5 "a" [("p", ⟨"p", 1, 0, false, none⟩)])) ∧
    cache_load (fun s => s) 0
        (some (cache_save (fun s => s) 5 "a" [("p", ⟨"p", 1, 0, false, none⟩)])) 7 "b"
      = (none, none) :=
  c9_cache_round_trip (fun s => s) (fun _ _ h => h) 0 5 7 "a" "b"
    [("p", ⟨"p", 1, 0, false, none⟩)] (by decide) (Or.inl rfl) (by decide)

/-- C8: the quick hash is a total deterministic function of the byte
list (totality and determinism are intrinsic to the model; the first
conjunct restates determinism explicitly); for inputs of at most
64 KB it is the first 32 hexadecimal characters of the BLAKE3 digest
of the whole input, and for larger inputs the first 32 hexadecimal
characters of the BLAKE3 digest of first 16 KB, middle 16 KB, last
16 KB and the little-endian length. -/
theorem c8_quick_hash_spec :
    ∀ (blake : List Nat → String) (data other : List Nat),
      (data = other →
        calculate_quick_hash blake data = calculate_quick_hash blake other) ∧
      (data.length ≤ 65536 →
        calculate_quick_hash blake data = (blake data).take 32) ∧
      (data.length > 65536 →
        calculate_quick_hash blake data =
          (blake (data.take 16384 ++ (data.drop (data.length / 2 - 8192)).take 16384 ++
            data.drop (data.length - 16384) ++ usize_le_bytes data.length)).take 32) := by
  intro blake data other
  refine ⟨fun h => by rw [h], fun h => ?_, fun h => ?_⟩
  · simp [calculate_quick_hash, calculate_hash, h]
  · simp only [calculate_quick_hash, calculate_hash]
    rw [if_neg (by omega)]

/-- Witness for C8 at concrete inputs: a constant digest function, a
3-byte input for the small branch and determinism, and a 65537-byte
input for the sampled branch. -/
theorem c8_quick_hash_spec_witness :
    (calculate_quick_hash (fun _ => "aa") [1, 2, 3] =
      calculate_quick_hash (fun _ => "aa") [1, 2, 3]) ∧
    (calculate_quick_hash (fun _ => "aa") [1, 2, 3] = ("aa" : String).take 32) ∧
    (calculate_quick_hash (fun _ => "aa") (List.replicate 65537 0) =
      ("aa" : String).take 32) :=
  ⟨(c8_quick_hash_spec (fun _ => "aa") [1, 2, 3] [1, 2, 3]).1 rfl,
    (c8_quick_hash_spec (fun _ => "aa") [1, 2, 3] []).2.1 (by decide),
    (c8_quick_hash_spec (fun _ => "aa") (List.replicate 65537 0) []).2.2
      (by rw [List.length_replicate]; omega)⟩

/-- C1: the claim states that the hash-skip phase leaves a Copy in
place whenever the destination tree lacks the path.  Evaluating the
embedded phase at the scenario of the spec (source holds foo.txt,
destination empty, a saved FileState with matching size and checksum)
shows the comparator emits the required Copy but the hash-skip phase
rewrites it to Skip although the destination tree does not contain the
path: the rewrite is not guarded by destination membership. -/
theorem c1_hash_skip_missing_dest (blake : List Nat → String) :
    tree_get ([] : Tree) "foo.txt" = none ∧
    compare_trees CompareConfig.default
        [("foo.txt", ⟨"foo.txt", 10, 100, false, none⟩)] [] SyncMode.Mirror
      = [SyncAction.copy "foo.txt" "foo.txt" 10 false] ∧
    hash_skip_phase blake
        (fun p => if p = "foo.txt" then
          some ⟨"job1", "foo.txt", 10, 100,
            some (calculate_quick_hash blake [104, 101, 108, 108, 111, 10, 119, 111, 114, 108]),
            some 100⟩
          else none)
        (fun p => if p = "foo.txt" then
          some [104, 101, 108, 108, 111, 10, 119, 111, 114, 108] else none)
        (compare_trees CompareConfig.default
          [("foo.txt", ⟨"foo.txt", 10, 100, false, none⟩)] [] SyncMode.Mirror)
      = [SyncAction.skip "foo.txt"] := by
  have hcomp : compare_trees CompareConfig.default
      [("foo.txt", ⟨"foo.txt", 10, 100, false, none⟩)] [] SyncMode.Mirror
      = [SyncAction.copy "foo.txt" "foo.txt" 10 false] := by decide
  refine ⟨by decide, hcomp, ?_⟩
  rw [hcomp]
  simp [hash_skip_phase, files_to_hash, rewrite_first_copy]

/-- Whether an action is a Copy. -/
def is_copy : SyncAction → Bool
  | SyncAction.copy _ _ _ _ => true
  | _ => false

/-- Whether an action is a Conflict. -/
def is_conflict : SyncAction → Bool
  | SyncAction.conflict _ _ _ _ => true
  | _ => false

theorem mem_compare_trees_iff {cfg : CompareConfig} {source dest : Tree}
    {mode : SyncMode} {a : SyncAction} :
    a ∈ compare_trees cfg source dest mode ↔
      a ∈ ((tree_keys source ++ tree_keys dest).dedup).filterMap
        (action_for_path cfg (tree_get source) (tree_get dest) mode) :=
  (List.perm_insertionSort _ _).mem_iff

theorem mem_tree_keys_of_tree_get {t : Tree} {p : String} {fi : FileInfo}
    (h : tree_get t p = some fi) : p ∈ tree_keys t := by
  unfold tree_get at h
  rcases hf : t.find? (fun e => e.1 == p) with _ | e
  · rw [hf] at h; simp at h
  · have he : e.1 = p := by simpa using List.find?_some hf
    have hm := List.mem_of_find?_eq_some hf
    rw [← he]
    exact List.mem_map_of_mem _ hm

theorem action_path_of_action_for_path {cfg : CompareConfig}
    {source dest : String → Option FileInfo} {mode : SyncMode} {p : String}
    {a : SyncAction} (h : action_for_path cfg source dest mode p = some a) :
    action_path a = p := by
  unfold action_for_path at h
  split at h
  · split at h
    · exact absurd h (by simp)
    · rw [Option.some_inj] at h
      subst h
      split <;> first | rfl | (split <;> rfl)
  · split at h
    · exact absurd h (by simp)
    · rw [Option.some_inj] at h
      subst h
      rfl
  · split at h
    · exact absurd h (by simp)
    · rw [Option.some_inj] at h
      subst h
      cases mode <;> rfl
  · exact absurd h (by simp)

/-- C4 counterexample: with the comparator configuration the engine
actually uses (the Default CompareConfig, use_checksum off), a path
present in both trees whose FileInfos carry distinct checksums but
share a size is emitted as Skip, falsifying the claim that a Copy or
Conflict is always emitted for such a path. -/
theorem c4_checksum_skip_counterexample :
    compare_trees CompareConfig.default
        [("f", ⟨"f", 1, 0, false, some "aa"⟩)] [("f", ⟨"f", 1, 0, false, some "bb"⟩)]
        SyncMode.Mirror
      = [SyncAction.skip "f"] ∧
    (⟨"f", 1, 0, false, some "aa"⟩ : FileInfo).checksum ≠
      (⟨"f", 1, 0, false, some "bb"⟩ : FileInfo).checksum ∧
    CompareConfig.default.use_checksum = false := by decide

/-- C4 amended: when the comparator is configured with use_checksum
enabled, for every path present in both trees, not a directory on both
sides, whose FileInfos both carry a checksum and the checksums differ,
the comparator emits exactly a Copy or a Conflict for that path and
never a Skip. -/
theorem c4_checksum_conflict_amended
    (cfg : CompareConfig) (source dest : Tree) (mode : SyncMode) (p : String)
    (si di : FileInfo) (cs cd : String)
    (hcfg : cfg.use_checksum = true)
    (hs : tree_get source p = some si) (hd : tree_get dest p = some di)
    (hdir : ¬(si.is_dir = true ∧ di.is_dir = true))
    (hcs : si.checksum = some cs) (hcd : di.checksum = some cd) (hne : cs ≠ cd) :
    (∃ a ∈ compare_trees cfg source dest mode, action_path a = p) ∧
    (∀ a ∈ compare_trees cfg source dest mode, action_path a = p →
      is_copy a = true ∨ is_conflict a = true) := by
  have hrel : compare_files cfg si di = FileRelation.Different := by
    simp [compare_files, hcfg, hcs, hcd, hne]
  have hact : ∀ a, action_for_path cfg (tree_get source) (tree_get dest) mode p = some a →
      is_copy a = true ∨ is_conflict a = true := by
    intro a h
    simp only [action_for_path, hs, hd, hrel, Bool.and_eq_true] at h
    rw [if_neg hdir, Option.some_inj] at h
    subst h
    cases mode <;> simp [is_copy, is_conflict]
  have hsome : ∃ a, action_for_path cfg (tree_get source) (tree_get dest) mode p = some a := by
    simp only [action_for_path, hs, hd, hrel, Bool.and_eq_true]
    rw [if_neg hdir]
    cases mode <;> exact ⟨_, rfl⟩
  constructor
  · obtain ⟨a, ha⟩ := hsome
    refine ⟨a, ?_, action_path_of_action_for_path ha⟩
    rw [mem_compare_trees_iff]
    exact List.mem_filterMap.mpr ⟨p, by
      simp only [List.mem_dedup, List.mem_append]
      exact Or.inl (mem_tree_keys_of_tree_get hs), ha⟩
  · intro a ha hpath
    rw [mem_compare_trees_iff] at ha
    obtain ⟨q, _, hfq⟩ := List.mem_filterMap.mp ha
    have hq : action_path a = q := action_path_of_action_for_path hfq
    rw [hpath] at hq
    rw [← hq] at hfq
    exact hact a hfq

/-- Witness for C4 amended at concrete inputs: checksum comparison
enabled, one shared path with differing checksums, Bidirectional. -/
theorem c4_checksum_conflict_amended_witness :
    (∃ a ∈ compare_trees ⟨2, true, false, true⟩
        [("f", ⟨"f", 1, 0, false, some "aa"⟩)] [("f", ⟨"f", 2, 0, false, some "bb"⟩)]
        SyncMode.Bidirectional, action_path a = "f") ∧
    (∀ a ∈ compare_trees ⟨2, true, false, true⟩
        [("f", ⟨"f", 1, 0, false, some "aa"⟩)] [("f", ⟨"f", 2, 0, false, some "bb"⟩)]
        SyncMode.Bidirectional, action_path a = "f" →
      is_copy a = true ∨ is_conflict a = true) :=
  c4_checksum_conflict_amended ⟨2, true, false, true⟩
    [("f", ⟨"f", 1, 0, false, some "aa"⟩)] [("f", ⟨"f", 2, 0, false, some "bb"⟩)]
    SyncMode.Bidirectional "f" ⟨"f", 1, 0, false, some "aa"⟩ ⟨"f", 2, 0, false, some "bb"⟩
    "aa" "bb" rfl (by decide) (by decide) (by decide) rfl rfl (by decide)

/-- C10: a directory present on exactly one side produces no action at
all in any mode; in particular Mirror never emits a Delete for a
directory that exists only on the destination side. -/
theorem c10_single_side_directory_no_action
    (cfg : CompareConfig) (source dest : Tree) (mode : SyncMode) (p : String)
    (h : (∃ fi, tree_get source p = some fi ∧ fi.is_dir = true ∧ tree_get dest p = none) ∨
         (∃ fi, tree_get dest p = some fi ∧ fi.is_dir = true ∧ tree_get source p = none)) :
    ∀ a ∈ compare_trees cfg source dest mode, action_path a ≠ p := by
  intro a ha hpath
  rw [mem_compare_trees_iff] at ha
  obtain ⟨q, _, hfq⟩ := List.mem_filterMap.mp ha
  have hq : action_path a = q := action_path_of_action_for_path hfq
  rw [hpath] at hq
  rw [← hq] at hfq
  rcases h with ⟨fi, hs, hdir, hd⟩ | ⟨fi, hd, hdir, hs⟩ <;>
    simp [action_for_path, hs, hd, hdir] at hfq

/-- Witness for C10 at concrete inputs: a directory present only in
the destination tree, Mirror mode. -/
theorem c10_single_side_directory_no_action_witness :
    (compare_trees CompareConfig.default
        [("x", ⟨"x", 1, 0, false, none⟩)]
        [("x", ⟨"x", 1, 0, false, none⟩), ("d", ⟨"d", 0, 0, true, none⟩)]
        SyncMode.Mirror).all (fun a => !(action_path a == "d")) = true :=
  List.all_eq_true.mpr (fun a ha => by
    have hne := c10_single_side_directory_no_action CompareConfig.default
      [("x", ⟨"x", 1, 0, false, none⟩)]
      [("x", ⟨"x", 1, 0, false, none⟩), ("d", ⟨"d", 0, 0, true, none⟩)]
      SyncMode.Mirror "d"
      (Or.inr ⟨⟨"d", 0, 0, true, none⟩, by decide, rfl, by decide⟩) a ha
    simpa using hne)

theorem charListLt_irrefl : ∀ l, charListLt l l = false
  | [] => rfl
  | a :: as => by
    simp [charListLt, charListLt_irrefl as]

theorem charListLt_asymm : ∀ l m, charListLt l m = true → charListLt m l = false
  | [], [] => by simp [charListLt]
  | [], _ :: _ => by simp [charListLt]
  | _ :: _, [] => by simp [charListLt]
  | a :: as, b :: bs => by
    simp only [charListLt]
    by_cases h1 : a.toNat < b.toNat
    · intro _
      rw [if_neg (by omega), if_pos h1]
    · by_cases h2 : b.toNat < a.toNat
      · simp [h1, h2]
      · rw [if_neg h1, if_neg h2, if_neg h2, if_neg h1]
        exact charListLt_asymm as bs

theorem charListLt_trans :
    ∀ l m n, charListLt l m = true → charListLt m n = true → charListLt l n = true
  | [], [], _ => by simp [charListLt]
  | [], _ :: _, [] => by simp [charListLt]
  | [], _ :: _, _ :: _ => by simp [charListLt]
  | _ :: _, [], _ => by simp [charListLt]
  | _ :: _, _ :: _, [] => by simp [charListLt]
  | a :: as, b :: bs, c :: cs => by
    simp only [charListLt]
    by_cases h1 : a.toNat < b.toNat <;> by_cases h2 : b.toNat < c.toNat
    · intro _ _
      rw [if_pos (by omega)]
    · by_cases h3 : c.toNat < b.toNat
      · simp [h2, h3]
      · intro _ _
        rw [if_pos (by omega)]
    · by_cases h0 : b.toNat < a.toNat
      · simp [h1, h0]
      · intro _ _
        rw [if_pos (by omega)]
    · by_cases h0 : b.toNat < a.toNat
      · simp [h1, h0]
      · by_cases h3 : c.toNat < b.toNat
        · simp [h2, h3]
        · rw [if_neg h1, if_neg h0, if_neg h2, if_neg h3, if_neg (by omega),
            if_neg (by omega)]
          exact charListLt_trans as bs cs

theorem charListLt_eq_of_not :
    ∀ l m, charListLt l m = false → charListLt m l = false → l = m
  | [], [] => by intro _ _; rfl
  | [], _ :: _ => by simp [charListLt]
  | _ :: _, [] => by intro _ h; exact absurd h (by simp [charListLt])
  | a :: as, b :: bs => by
    simp only [charListLt]
    by_cases h1 : a.toNat < b.toNat
    · simp [h1]
    · by_cases h2 : b.toNat < a.toNat
      · intro _ h
        rw [if_pos h2] at h
        exact absurd h (by simp)
      · rw [if_neg h1, if_neg h2, if_neg h2, if_neg h1]
        intro hl hm
        have hab : a = b := by
          rw [← Char.ofNat_toNat a, ← Char.ofNat_toNat b]
          congr 1
          omega
        rw [hab, charListLt_eq_of_not as bs hl hm]

theorem strLt_asymm {a b : String} (h : strLt a b = true) : strLt b a = false :=
  charListLt_asymm a.data b.data h

theorem strLt_trans {a b c : String} (h1 : strLt a b = true) (h2 : strLt b c = true) :
    strLt a c = true :=
  charListLt_trans a.data b.data c.data h1 h2

theorem str_eq_of_not_lt {a b : String} (h1 : strLt a b = false)
    (h2 : strLt b a = false) : a = b := by
  cases a with
  | mk da =>
    cases b with
    | mk db =>
      have : da = db := charListLt_eq_of_not da db h1 h2
      rw [this]

theorem actionLe_total_bool (a b : SyncAction) :
    actionLe a b = true ∨ actionLe b a = true := by
  unfold actionLe strLe
  by_cases h : action_order a < action_order b
  · left
    simp [h]
  · by_cases h2 : action_order b < action_order a
    · right
      simp [h2]
    · have he : action_order a = action_order b := by omega
      by_cases h3 : strLt (action_path b) (action_path a) = true
      · right
        have h4 : strLt (action_path a) (action_path b) = false := strLt_asymm h3
        simp [he, h4]
      · left
        have h4 : strLt (action_path b) (action_path a) = false := by simpa using h3
        simp [he, h4]

theorem strLe_trans_aux {pa pb pc : String} (h1 : strLt pb pa = false)
    (h2 : strLt pc pb = false) : strLt pc pa = false := by
  cases hca : strLt pc pa with
  | false => rfl
  | true =>
    exfalso
    cases hbc : strLt pb pc with
    | true =>
      have hba := strLt_trans hbc hca
      rw [hba] at h1
      exact Bool.noConfusion h1
    | false =>
      cases hab : strLt pa pb with
      | true =>
        have hcb := strLt_trans hca hab
        rw [hcb] at h2
        exact Bool.noConfusion h2
      | false =>
        have hba : pb = pa := str_eq_of_not_lt h1 hab
        have hbc2 : pb = pc := str_eq_of_not_lt hbc h2
        rw [← hbc2, hba] at hca
        unfold strLt at hca
        rw [charListLt_irrefl] at hca
        exact Bool.noConfusion hca

theorem actionLe_trans_bool (a b c : SyncAction) (h1 : actionLe a b = true)
    (h2 : actionLe b c = true) : actionLe a c = true := by
  unfold actionLe strLe at h1 h2 ⊢
  simp only [Bool.or_eq_true, Bool.and_eq_true, decide_eq_true_eq,
    Bool.not_eq_true'] at h1 h2 ⊢
  rcases h1 with h1 | ⟨h1e, h1s⟩ <;> rcases h2 with h2 | ⟨h2e, h2s⟩
  · left; omega
  · left; omega
  · left; omega
  · right
    exact ⟨by omega, strLe_trans_aux h1s h2s⟩

theorem actionLt_of_le_of_ne {a b : SyncAction} (hle : actionLe a b = true)
    (hne : action_path a ≠ action_path b) : actionLt a b = true := by
  unfold actionLe strLe at hle
  unfold actionLt
  simp only [Bool.or_eq_true, Bool.and_eq_true, decide_eq_true_eq,
    Bool.not_eq_true'] at hle ⊢
  rcases hle with h | ⟨he, hs⟩
  · left; exact h
  · right
    refine ⟨he, ?_⟩
    cases h : strLt (action_path a) (action_path b) with
    | false => exact absurd (str_eq_of_not_lt h hs) hne
    | true => rfl

theorem actionLt_asymm {a b : SyncAction} (h : actionLt a b = true) :
    actionLt b a = false := by
  unfold actionLt at h ⊢
  simp only [Bool.or_eq_true, Bool.and_eq_true, decide_eq_true_eq] at h
  simp only [Bool.or_eq_false_iff, Bool.and_eq_false_iff, decide_eq_false_iff_not]
  rcases h with h | ⟨he, hs⟩
  · exact ⟨by omega, Or.inl (by omega)⟩
  · exact ⟨by omega, Or.inr (strLt_asymm hs)⟩

theorem tree_get_some_iff {t : Tree} (hnd : (tree_keys t).Nodup) {p : String}
    {fi : FileInfo} : tree_get t p = some fi ↔ (p, fi) ∈ t := by
  constructor
  · intro h
    unfold tree_get at h
    rcases hf : t.find? (fun e => e.1 == p) with _ | e
    · rw [hf] at h
      exact Option.noConfusion h
    · rw [hf] at h
      have h2 : e.2 = fi := Option.some.inj h
      have he : e.1 = p := by simpa using List.find?_some hf
      have hm := List.mem_of_find?_eq_some hf
      have hep : e = (p, fi) := by
        cases e
        simp_all
      rwa [hep] at hm
  · intro hm
    unfold tree_get
    rcases hf : t.find? (fun e => e.1 == p) with _ | e
    · have := List.find?_eq_none.mp hf (p, fi) hm
      simp at this
    · have he : e.1 = p := by simpa using List.find?_some hf
      have hm2 := List.mem_of_find?_eq_some hf
      have hep : e = (p, fi) := List.inj_on_of_nodup_map hnd hm2 hm (by simpa using he)
      rw [hf, hep]
      rfl

theorem tree_get_eq_of_perm {t1 t2 : Tree} (hp : t1.Perm t2)
    (hnd : (tree_keys t1).Nodup) (p : String) : tree_get t1 p = tree_get t2 p := by
  have hnd2 : (tree_keys t2).Nodup := hnd.perm (hp.map _)
  rcases h1 : tree_get t1 p with _ | fi
  · rcases h2 : tree_get t2 p with _ | fi2
    · rfl
    · have hm2 := (tree_get_some_iff hnd2).mp h2
      have hm1 : (p, fi2) ∈ t1 := hp.symm.subset hm2
      have := (tree_get_some_iff hnd).mpr hm1
      rw [h1] at this
      exact absurd this (by simp)
  · have hm1 := (tree_get_some_iff hnd).mp h1
    have hm2 : (p, fi) ∈ t2 := hp.subset hm1
    exact ((tree_get_some_iff hnd2).mpr hm2).symm

theorem action_for_path_congr {cfg : CompareConfig} {mode : SyncMode} {p : String}
    {s1 s2 d1 d2 : String → Option FileInfo} (hs : s1 p = s2 p) (hd : d1 p = d2 p) :
    action_for_path cfg s1 d1 mode p = action_for_path cfg s2 d2 mode p := by
  unfold action_for_path
  rw [hs, hd]

theorem pairwise_ne_path_filterMap {cfg : CompareConfig} {mode : SyncMode}
    {src dst : String → Option FileInfo} {paths : List String} (h : paths.Nodup) :
    (paths.filterMap (action_for_path cfg src dst mode)).Pairwise
      (fun a b => action_path a ≠ action_path b) := by
  rw [List.pairwise_filterMap]
  exact h.imp (fun {p q} hpq => by
    intro a ha b hb
    rw [action_path_of_action_for_path (Option.mem_def.mp ha),
      action_path_of_action_for_path (Option.mem_def.mp hb)]
    exact hpq)

theorem sorted_compare_trees (cfg : CompareConfig) (source dest : Tree)
    (mode : SyncMode) :
    (compare_trees cfg source dest mode).Sorted (fun a b => actionLe a b = true) := by
  unfold compare_trees
  haveI : IsTotal SyncAction (fun a b => actionLe a b = true) := ⟨actionLe_total_bool⟩
  haveI : IsTrans SyncAction (fun a b => actionLe a b = true) := ⟨actionLe_trans_bool⟩
  exact List.sorted_insertionSort _ _

theorem sorted_lt_compare_trees (cfg : CompareConfig) (source dest : Tree)
    (mode : SyncMode) :
    (compare_trees cfg source dest mode).Sorted (fun a b => actionLt a b = true) := by
  have hle := sorted_compare_trees cfg source dest mode
  have hne : (compare_trees cfg source dest mode).Pairwise
      (fun a b => action_path a ≠ action_path b) := by
    have hfm := @pairwise_ne_path_filterMap cfg mode (tree_get source) (tree_get dest)
      _ (List.nodup_dedup (tree_keys source ++ tree_keys dest))
    exact ((List.perm_insertionSort _ _).pairwise_iff
      (fun {x y} h => Ne.symm h)).mpr hfm
  exact (hle.and hne).imp (fun {a b} h => actionLt_of_le_of_ne h.1 h.2)

theorem compare_trees_congr_perm {cfg : CompareConfig} {mode : SyncMode}
    {s1 s2 d1 d2 : Tree} (hs : s1.Perm s2) (hd : d1.Perm d2)
    (hsn : (tree_keys s1).Nodup) (hdn : (tree_keys d1).Nodup) :
    compare_trees cfg s1 d1 mode = compare_trees cfg s2 d2 mode := by
  have hf : ∀ p, action_for_path cfg (tree_get s1) (tree_get d1) mode p
      = action_for_path cfg (tree_get s2) (tree_get d2) mode p := fun p =>
    action_for_path_congr (tree_get_eq_of_perm hs hsn p) (tree_get_eq_of_perm hd hdn p)
  have hpaths : ((tree_keys s1 ++ tree_keys d1).dedup).Perm
      ((tree_keys s2 ++ tree_keys d2).dedup) := by
    rw [List.perm_ext_iff_of_nodup (List.nodup_dedup _) (List.nodup_dedup _)]
    intro p
    simp only [List.mem_dedup, List.mem_append]
    have hks : (tree_keys s1).Perm (tree_keys s2) := hs.map _
    have hkd : (tree_keys d1).Perm (tree_keys d2) := hd.map _
    rw [hks.mem_iff, hkd.mem_iff]
  have hperm : (((tree_keys s1 ++ tree_keys d1).dedup).filterMap
      (action_for_path cfg (tree_get s1) (tree_get d1) mode)).Perm
      (((tree_keys s2 ++ tree_keys d2).dedup).filterMap
      (action_for_path cfg (tree_get s2) (tree_get d2) mode)) := by
    have e1 : ((tree_keys s2 ++ tree_keys d2).dedup).filterMap
        (action_for_path cfg (tree_get s1) (tree_get d1) mode)
        = ((tree_keys s2 ++ tree_keys d2).dedup).filterMap
        (action_for_path cfg (tree_get s2) (tree_get d2) mode) :=
      List.filterMap_congr (fun p _ => hf p)
    exact e1 ▸ hpaths.filterMap _
  have permL : (compare_trees cfg s1 d1 mode).Perm (compare_trees cfg s2 d2 mode) := by
    unfold compare_trees
    exact (List.perm_insertionSort _ _).trans
      (hperm.trans (List.perm_insertionSort _ _).symm)
  haveI : IsAntisymm SyncAction (fun a b => actionLt a b = true) :=
    ⟨fun a b h1 h2 => absurd h2 (by simp [actionLt_asymm h1])⟩
  exact List.eq_of_perm_of_sorted permL (sorted_lt_compare_trees cfg s1 d1 mode)
    (sorted_lt_compare_trees cfg s2 d2 mode)

/-- C6: the comparator is deterministic: permuting the HashMap
contents of either input tree (equal trees as maps) leaves the output
action list unchanged, and the output is sorted by the key
(kind rank, path) where Copy ranks 0, Conflict 1, Delete 2 and Skip 3
(actionLe is exactly that lexicographic key order). -/
theorem c6_compare_deterministic_sorted (cfg : CompareConfig) (mode : SyncMode)
    (s1 s2 d1 d2 : Tree) (hs : s1.Perm s2) (hd : d1.Perm d2)
    (hsn : (tree_keys s1).Nodup) (hdn : (tree_keys d1).Nodup) :
    compare_trees cfg s1 d1 mode = compare_trees cfg s2 d2 mode ∧
    (compare_trees cfg s1 d1 mode).Sorted (fun a b => actionLe a b = true) :=
  ⟨compare_trees_congr_perm hs hd hsn hdn, sorted_compare_trees cfg s1 d1 mode⟩

/-- Witness for C6 at concrete inputs: two permutations of a two-entry
source tree and a one-entry destination tree, Mirror mode. -/
theorem c6_compare_deterministic_sorted_witness :
    compare_trees CompareConfig.default
        [("b", ⟨"b", 2, 0, false, none⟩), ("a", ⟨"a", 1, 0, false, none⟩)]
        [("c", ⟨"c", 3, 0, false, none⟩)] SyncMode.Mirror
      = compare_trees CompareConfig.default
        [("a", ⟨"a", 1, 0, false, none⟩), ("b", ⟨"b", 2, 0, false, none⟩)]
        [("c", ⟨"c", 3, 0, false, none⟩)] SyncMode.Mirror ∧
    (compare_trees CompareConfig.default
        [("b", ⟨"b", 2, 0, false, none⟩), ("a", ⟨"a", 1, 0, false, none⟩)]
        [("c", ⟨"c", 3, 0, false, none⟩)] SyncMode.Mirror).Sorted
      (fun a b => actionLe a b = true) :=
  c6_compare_deterministic_sorted CompareConfig.default SyncMode.Mirror
    [("b", ⟨"b", 2, 0, false, none⟩), ("a", ⟨"a", 1, 0, false, none⟩)]
    [("a", ⟨"a", 1, 0, false, none⟩), ("b", ⟨"b", 2, 0, false, none⟩)]
    [("c", ⟨"c", 3, 0, false, none⟩)] [("c", ⟨"c", 3, 0, false, none⟩)]
    (by decide) (by decide) (by decide) (by decide)

theorem attempt_bytes_ok_of_success {tp : TransferParams}
    {src_content dst_content : String → List Nat} {a : SyncAction} {out : AttemptOutcome}
    (h : attempt_success a out = true) :
    attempt_bytes tp src_content dst_content a out
      = attempt_bytes tp src_content dst_content a AttemptOutcome.ok := by
  cases a <;> cases out <;> simp_all [attempt_success]

theorem attempt_bytes_ok_eq_success_copy_bytes (tp : TransferParams)
    (src_content dst_content : String → List Nat) (a : SyncAction) :
    attempt_bytes tp src_content dst_content a AttemptOutcome.ok
      = success_copy_bytes tp src_content dst_content a := by
  cases a <;> rfl

theorem result_state_eq_state_spec (blake : List Nat → String) (job_id : String)
    (now : Int) (tp : TransferParams) (src_content dst_content : String → List Nat)
    (a : SyncAction) :
    result_file_state job_id now (execute_action_result blake tp src_content dst_content a)
      = state_spec blake job_id now tp src_content a := by
  cases a with
  | copy sp dp sz rv =>
    cases rv with
    | false =>
      by_cases h : sz > tp.stream_threshold <;>
        simp [execute_action_result, result_file_state, state_spec, copy_read_data, h]
    | true =>
      by_cases h : sz > tp.stream_threshold <;>
        simp [execute_action_result, result_file_state, state_spec, copy_read_data, h]
  | delete p fd => rfl
  | skip p => rfl
  | conflict p si di ct => rfl

theorem exec_attempts_go_spec (blake : List Nat → String) (job_id : String) (now : Int)
    (tp : TransferParams) (src_content dst_content : String → List Nat)
    (sched : ActSched) (a : SyncAction) :
    ∀ fuel attempt acc,
      exec_attempts_go blake job_id now tp src_content dst_content sched a attempt fuel acc
        = ⟨action_succeeds_go sched a attempt fuel,
            acc + failed_stream_bytes_go tp src_content dst_content sched a attempt fuel +
              (if action_succeeds_go sched a attempt fuel then
                attempt_bytes tp src_content dst_content a AttemptOutcome.ok else 0),
            if action_succeeds_go sched a attempt fuel then
              result_file_state job_id now
                (execute_action_result blake tp src_content dst_content a)
            else none⟩ := by
  intro fuel
  induction fuel with
  | zero =>
    intro attempt acc
    simp [exec_attempts_go, action_succeeds_go, failed_stream_bytes_go]
  | succ n ih =>
    intro attempt acc
    rw [exec_attempts_go, action_succeeds_go, failed_stream_bytes_go]
    by_cases hc : sched.cancelled_at attempt = true
    · simp [hc]
    · simp only [hc, if_false, Bool.false_eq_true]
      by_cases hs : attempt_success a (sched.outcome attempt) = true
      · simp only [hs, if_true]
        rw [attempt_bytes_ok_of_success hs, Nat.add_zero]
      · simp only [hs, if_false, Bool.false_eq_true]
        rw [ih, Nat.add_assoc acc]

theorem execute_action_with_retry_spec (blake : List Nat → String) (job_id : String)
    (now : Int) (tp : TransferParams) (src_content dst_content : String → List Nat)
    (max_retries : Nat) (sched : ActSched) (a : SyncAction) :
    execute_action_with_retry blake job_id now tp src_content dst_content max_retries
        sched a
      = ⟨action_succeeds sched a max_retries,
          failed_stream_bytes tp src_content dst_content sched a max_retries +
            (if action_succeeds sched a max_retries then
              success_copy_bytes tp src_content dst_content a else 0),
          if action_succeeds sched a max_retries then
            state_spec blake job_id now tp src_content a
          else none⟩ := by
  unfold execute_action_with_retry action_succeeds failed_stream_bytes
  rw [exec_attempts_go_spec, attempt_bytes_ok_eq_success_copy_bytes,
    result_state_eq_state_spec]
  simp

theorem exec_actions_from_bytes (blake : List Nat → String) (job_id : String)
    (now : Int) (tp : TransferParams) (src_content dst_content : String → List Nat)
    (max_retries : Nat) (scheds : Nat → ActSched) :
    ∀ (actions : List SyncAction) (i : Nat),
      (exec_actions_from blake job_id now tp src_content dst_content max_retries scheds
          i actions).bytes
        = ((dispatched_actions scheds i actions).map (fun ia =>
            (if action_succeeds (scheds ia.1) ia.2 max_retries then
              success_copy_bytes tp src_content dst_content ia.2 else 0) +
            failed_stream_bytes tp src_content dst_content (scheds ia.1) ia.2
              max_retries)).sum := by
  intro actions
  induction actions with
  | nil => intro i; rfl
  | cons a rest ih =>
    intro i
    rw [exec_actions_from, dispatched_actions]
    by_cases hc : (scheds i).pre_cancelled = true
    · simp [hc]
    · simp only [hc, if_false, Bool.false_eq_true, List.map_cons, List.sum_cons]
      rw [execute_action_with_retry_spec, ih]
      simp only
      omega

theorem exec_actions_from_states (blake : List Nat → String) (job_id : String)
    (now : Int) (tp : TransferParams) (src_content dst_content : String → List Nat)
    (max_retries : Nat) (scheds : Nat → ActSched) :
    ∀ (actions : List SyncAction) (i : Nat),
      (exec_actions_from blake job_id now tp src_content dst_content max_retries scheds
          i actions).states
        = (dispatched_actions scheds i actions).filterMap (fun ia =>
            if action_succeeds (scheds ia.1) ia.2 max_retries then
              state_spec blake job_id now tp src_content ia.2
            else none) := by
  intro actions
  induction actions with
  | nil => intro i; rfl
  | cons a rest ih =>
    intro i
    rw [exec_actions_from, dispatched_actions]
    by_cases hc : (scheds i).pre_cancelled = true
    · simp [hc]
    · simp only [hc, if_false, Bool.false_eq_true, List.filterMap_cons]
      rw [execute_action_with_retry_spec, ih]
      by_cases hs : action_succeeds (scheds i) a max_retries = true
      · simp only [hs, if_true]
        cases state_spec blake job_id now tp src_content a <;> rfl
      · simp only [hs, if_false, Bool.false_eq_true]
        rfl

/-- A schedule with no cancellation and success on every attempt, used
by concrete instantiations. -/
def plain_sched : ActSched := ⟨false, fun _ => false, fun _ => AttemptOutcome.ok⟩

/-- A constant digest function for concrete instantiations. -/
def blake0 : List Nat → String := fun _ => ""

/-- C2 counterexample: a run whose cancellation flag is set from the
start terminates with status Cancelled but writes no sync_logs row at
all: every early cancellation return produces create_cancelled_report
without calling log_sync_result, so no Cancelled history row exists,
falsifying the claim. -/
theorem c2_cancel_before_sync_counterexample :
    (run_sync blake0 "job1" 0 (fun _ => true) ⟨8, 128⟩ 5 (fun _ => []) (fun _ => [])
        [("f", ⟨"f", 1, 0, false, none⟩)] [] SyncMode.Mirror (fun _ => none)
        (fun _ => none) (fun _ => plain_sched)).status = SyncStatus.Cancelled ∧
    (run_sync blake0 "job1" 0 (fun _ => true) ⟨8, 128⟩ 5 (fun _ => []) (fun _ => [])
        [("f", ⟨"f", 1, 0, false, none⟩)] [] SyncMode.Mirror (fun _ => none)
        (fun _ => none) (fun _ => plain_sched)).log_rows = [] := by
  constructor <;> rfl

/-- C2 amended: for every run on which the cancellation flag is
observed set at any of the four checks before the Syncing phase, the
run terminates with status Cancelled, writes no history row to the
sync log, and persists no FileState. -/
theorem c2_cancel_before_sync_amended (blake : List Nat → String) (job_id : String)
    (now : Int) (flag : Nat → Bool) (tp : TransferParams) (max_retries : Nat)
    (src_content dst_content : String → List Nat) (source_tree dest_tree : Tree)
    (mode : SyncMode) (saved : String → Option FileState)
    (read_source : String → Option (List Nat)) (scheds : Nat → ActSched)
    (h : flag 0 = true ∨ flag 1 = true ∨ flag 2 = true ∨ flag 3 = true) :
    (run_sync blake job_id now flag tp max_retries src_content dst_content source_tree
        dest_tree mode saved read_source scheds).status = SyncStatus.Cancelled ∧
    (run_sync blake job_id now flag tp max_retries src_content dst_content source_tree
        dest_tree mode saved read_source scheds).log_rows = [] ∧
    (run_sync blake job_id now flag tp max_retries src_content dst_content source_tree
        dest_tree mode saved read_source scheds).persisted_states = [] := by
  unfold run_sync
  by_cases h0 : flag 0 = true
  · simp [h0, cancelled_run_result]
  · by_cases h1f : flag 1 = true
    · simp [h0, h1f, cancelled_run_result]
    · by_cases h2f : flag 2 = true
      · simp [h0, h1f, h2f, cancelled_run_result]
      · have h3f : flag 3 = true := by
          rcases h with h | h | h | h
          · exact absurd h h0
          · exact absurd h h1f
          · exact absurd h h2f
          · exact h
        simp [h0, h1f, h2f, h3f, cancelled_run_result]

/-- Witness for C2 amended at concrete inputs: the flag becomes set at
the fourth pre-Syncing check. -/
theorem c2_cancel_before_sync_amended_witness :
    (run_sync blake0 "j" 0 (fun i => decide (3 ≤ i)) ⟨8, 128⟩ 5 (fun _ => [])
        (fun _ => []) [("f", ⟨"f", 1, 0, false, none⟩)] [] SyncMode.Mirror
        (fun _ => none) (fun _ => none) (fun _ => plain_sched)).status
      = SyncStatus.Cancelled ∧
    (run_sync blake0 "j" 0 (fun i => decide (3 ≤ i)) ⟨8, 128⟩ 5 (fun _ => [])
        (fun _ => []) [("f", ⟨"f", 1, 0, false, none⟩)] [] SyncMode.Mirror
        (fun _ => none) (fun _ => none) (fun _ => plain_sched)).log_rows = [] ∧
    (run_sync blake0 "j" 0 (fun i => decide (3 ≤ i)) ⟨8, 128⟩ 5 (fun _ => [])
        (fun _ => []) [("f", ⟨"f", 1, 0, false, none⟩)] [] SyncMode.Mirror
        (fun _ => none) (fun _ => none) (fun _ => plain_sched)).persisted_states = [] :=
  c2_cancel_before_sync_amended blake0 "j" 0 (fun i => decide (3 ≤ i)) ⟨8, 128⟩ 5
    (fun _ => []) (fun _ => []) [("f", ⟨"f", 1, 0, false, none⟩)] [] SyncMode.Mirror
    (fun _ => none) (fun _ => none) (fun _ => plain_sched)
    (Or.inr (Or.inr (Or.inr (by decide))))

/-- C5 counterexample: a single streamed copy of declared size 10
(threshold 5, chunk 4) whose first upload attempt fails after pulling
one chunk and whose second attempt succeeds.  The run completes with
the one copy successful and no failures, yet bytesTransferred is 14,
not the sum of declared sizes of successful copies (10): the bytes of
the failed streaming attempt are never rolled back. -/
theorem c5_bytes_counterexample :
    (run_sync blake0 "j" 0 (fun _ => false) ⟨4, 5⟩ 5 (fun _ => List.replicate 12 7)
        (fun _ => []) [("big", ⟨"big", 10, 0, false, none⟩)] [] SyncMode.Mirror
        (fun _ => none) (fun _ => none)
        (fun _ => ⟨false, fun _ => false,
          fun k => if k = 0 then AttemptOutcome.failStreamPhase2 1
            else AttemptOutcome.ok⟩)).bytesTransferred = 14 ∧
    (run_sync blake0 "j" 0 (fun _ => false) ⟨4, 5⟩ 5 (fun _ => List.replicate 12 7)
        (fun _ => []) [("big", ⟨"big", 10, 0, false, none⟩)] [] SyncMode.Mirror
        (fun _ => none) (fun _ => none)
        (fun _ => ⟨false, fun _ => false,
          fun k => if k = 0 then AttemptOutcome.failStreamPhase2 1
            else AttemptOutcome.ok⟩)).filesCopied = 1 ∧
    (run_sync blake0 "j" 0 (fun _ => false) ⟨4, 5⟩ 5 (fun _ => List.replicate 12 7)
        (fun _ => []) [("big", ⟨"big", 10, 0, false, none⟩)] [] SyncMode.Mirror
        (fun _ => none) (fun _ => none)
        (fun _ => ⟨false, fun _ => false,
          fun k => if k = 0 then AttemptOutcome.failStreamPhase2 1
            else AttemptOutcome.ok⟩)).filesFailed = 0 := by
  refine ⟨?_, ?_, ?_⟩ <;> decide

/-- C5 amended: for every run that reaches the Syncing phase, the
bytesTransferred of the final report equals the sum, over the
dispatched actions, of the declared size of each Copy that completed
successfully (the staged temp length for a streamed copy) plus the
bytes pulled by its failed streaming attempts; failed buffered
attempts, Deletes, Skips and Conflicts contribute nothing. -/
theorem c5_bytes_amended (blake : List Nat → String) (job_id : String) (now : Int)
    (flag : Nat → Bool) (tp : TransferParams) (max_retries : Nat)
    (src_content dst_content : String → List Nat) (source_tree dest_tree : Tree)
    (mode : SyncMode) (saved : String → Option FileState)
    (read_source : String → Option (List Nat)) (scheds : Nat → ActSched)
    (h0 : flag 0 = false) (h1 : flag 1 = false) (h2 : flag 2 = false)
    (h3 : flag 3 = false) :
    (run_sync blake job_id now flag tp max_retries src_content dst_content source_tree
        dest_tree mode saved read_source scheds).bytesTransferred
      = ((dispatched_actions scheds 0
            ((hash_skip_phase blake saved read_source
              (compare_trees CompareConfig.default source_tree dest_tree mode)).filter
              (fun a => !is_skip a))).map (fun ia =>
          (if action_succeeds (scheds ia.1) ia.2 max_retries then
            success_copy_bytes tp src_content dst_content ia.2 else 0) +
          failed_stream_bytes tp src_content dst_content (scheds ia.1) ia.2
            max_retries)).sum := by
  unfold run_sync execute_sync_parallel
  simp only [h0, h1, h2, h3, Bool.false_eq_true, if_false]
  exact exec_actions_from_bytes blake job_id now tp src_content dst_content max_retries
    scheds _ 0

/-- Witness for C5 amended at concrete inputs: one buffered copy that
succeeds on its first attempt. -/
theorem c5_bytes_amended_witness :
    (run_sync blake0 "j" 0 (fun _ => false) ⟨8, 128⟩ 5 (fun _ => [1, 2]) (fun _ => [])
        [("a", ⟨"a", 2, 0, false, none⟩)] [] SyncMode.Mirror (fun _ => none)
        (fun _ => none) (fun _ => plain_sched)).bytesTransferred
      = ((dispatched_actions (fun _ => plain_sched) 0
            ((hash_skip_phase blake0 (fun _ => none) (fun _ => none)
              (compare_trees CompareConfig.default [("a", ⟨"a", 2, 0, false, none⟩)] []
                SyncMode.Mirror)).filter (fun a => !is_skip a))).map (fun ia =>
          (if action_succeeds plain_sched ia.2 5 then
            success_copy_bytes ⟨8, 128⟩ (fun _ => [1, 2]) (fun _ => []) ia.2 else 0) +
          failed_stream_bytes ⟨8, 128⟩ (fun _ => [1, 2]) (fun _ => []) plain_sched
            ia.2 5)).sum :=
  c5_bytes_amended blake0 "j" 0 (fun _ => false) ⟨8, 128⟩ 5 (fun _ => [1, 2])
    (fun _ => []) [("a", ⟨"a", 2, 0, false, none⟩)] [] SyncMode.Mirror (fun _ => none)
    (fun _ => none) (fun _ => plain_sched) rfl rfl rfl rfl

/-- C7: for every run that reaches the Syncing phase, the FileStates
handed to the state store are exactly the state_spec values of the
dispatched actions that completed successfully: state_spec yields a
row precisely for a non-reverse Copy (carrying the run job id, the
copy source path, the transferred size and the computed checksum) and
None for reverse copies, deletes, skips and conflicts, so a FileState
is persisted exactly for successfully completed non-reverse copies. -/
theorem c7_file_state_exactly_successful_copies (blake : List Nat → String)
    (job_id : String) (now : Int) (flag : Nat → Bool) (tp : TransferParams)
    (max_retries : Nat) (src_content dst_content : String → List Nat)
    (source_tree dest_tree : Tree) (mode : SyncMode)
    (saved : String → Option FileState) (read_source : String → Option (List Nat))
    (scheds : Nat → ActSched)
    (h0 : flag 0 = false) (h1 : flag 1 = false) (h2 : flag 2 = false)
    (h3 : flag 3 = false) :
    (run_sync blake job_id now flag tp max_retries src_content dst_content source_tree
        dest_tree mode saved read_source scheds).persisted_states
      = (dispatched_actions scheds 0
            ((hash_skip_phase blake saved read_source
              (compare_trees CompareConfig.default source_tree dest_tree mode)).filter
              (fun a => !is_skip a))).filterMap (fun ia =>
          if action_succeeds (scheds ia.1) ia.2 max_retries then
            state_spec blake job_id now tp src_content ia.2
          else none) := by
  unfold run_sync execute_sync_parallel
  simp only [h0, h1, h2, h3, Bool.false_eq_true, if_false]
  exact exec_actions_from_states blake job_id now tp src_content dst_content
    max_retries scheds _ 0

/-- Witness for C7 at concrete inputs: one buffered copy that succeeds
on its first attempt. -/
theorem c7_file_state_exactly_successful_copies_witness :
    (run_sync blake0 "j" 7 (fun _ => false) ⟨8, 128⟩ 5 (fun _ => [9, 9, 9])
        (fun _ => []) [("a", ⟨"a", 3, 0, false, none⟩)] [] SyncMode.Mirror
        (fun _ => none) (fun _ => none) (fun _ => plain_sched)).persisted_states
      = (dispatched_actions (fun _ => plain_sched) 0
            ((hash_skip_phase blake0 (fun _ => none) (fun _ => none)
              (compare_trees CompareConfig.default [("a", ⟨"a", 3, 0, false, none⟩)] []
                SyncMode.Mirror)).filter (fun a => !is_skip a))).filterMap (fun ia =>
          if action_succeeds plain_sched ia.2 5 then
            state_spec blake0 "j" 7 ⟨8, 128⟩ (fun _ => [9, 9, 9]) ia.2
          else none) :=
  c7_file_state_exactly_successful_copies blake0 "j" 7 (fun _ => false) ⟨8, 128⟩ 5
    (fun _ => [9, 9, 9]) (fun _ => []) [("a", ⟨"a", 3, 0, false, none⟩)] []
    SyncMode.Mirror (fun _ => none) (fun _ => none) (fun _ => plain_sched)
    rfl rfl rfl rfl

end SyncTools
